import Mathlib

set_option maxHeartbeats 1000000
set_option maxRecDepth 10000

/-!
Shallow embedding of the stock forecasting pipeline of this repository
(data_preprocessing.py, model_training.py, prophet_model.py), used to settle
the specification claims C1 to C10.

Conventions: calendar dates are modelled as natural day numbers, except where
calendar-month structure matters (the Monthly Aggregator and the per-ticker
rescale), where a year/month/day record or a yyyymmdd number is used.  Numeric
cells are rationals; a pandas NaN cell is Option.none.  Values produced by the
external fitted models (Prophet, the gradient-boosted regressor, sklearn) are
treated as unconstrained parameters; the post-processing the repository applies
to them is embedded exactly.
-/

namespace StockPipeline

/- ### Series Aligner: data_preprocessing.py, preprocess_data (lines 92 to 139) -/

/-- Tabular series as preprocess_data sees one: a Date column (naive calendar
dates as day numbers, already normalized by enforce_date_column) plus named
numeric columns; a pandas NaN cell is none. -/
structure DF where
  dates : List ℕ
  cols : List (String × List (Option ℚ))
deriving DecidableEq

/-- Column names of a frame (pandas df.columns; the Date column is structural). -/
def colNames (df : DF) : List String := df.cols.map Prod.fst

/-- Column cells of one named column, pandas merged[c]; none when the column is
absent. -/
def getCol (df : DF) (c : String) : Option (List (Option ℚ)) :=
  (df.cols.find? fun p => p.1 = c).map Prod.snd

/-- Minimum of a list of day numbers, pandas Series.min on a nonempty Date
column (the sources never take it on an empty frame; 0 is a junk value). -/
def minNat : List ℕ → ℕ
  | [] => 0
  | x :: t => t.foldl min x

/-- Maximum of a list of day numbers, pandas Series.max. -/
def maxNat : List ℕ → ℕ
  | [] => 0
  | x :: t => t.foldl max x

/-- Daily calendar from start to end inclusive: pd.date_range(start, end,
freq=D); empty when start exceeds end. -/
def dateRange (s e : ℕ) : List ℕ := (List.range (e + 1 - s)).map (s + ·)

/-- Stored cell of a column at a given date of the original index; none when
the date is absent (pandas reindex introduces NaN there).  The sources
guarantee unique dates per series (enforce_date_column sorts and the
DatedSeries invariant forbids duplicates; pandas reindex would raise on them),
so taking the first match is exact. -/
def colAt : List ℕ → List (Option ℚ) → ℕ → Option ℚ
  | [], _, _ => none
  | _ :: _, [], _ => none
  | d :: ds, v :: vs, t => if d = t then v else colAt ds vs t

/-- One forward-fill step: a NaN cell takes the accumulator, the last value
seen so far. -/
def fillCell (acc x : Option ℚ) : Option ℚ :=
  match x with
  | none => acc
  | some v => some v

/-- Forward fill with an explicit accumulator (pandas ffill walks the column
carrying the last non-NaN value). -/
def ffillAcc : Option ℚ → List (Option ℚ) → List (Option ℚ)
  | _, [] => []
  | acc, x :: xs => fillCell acc x :: ffillAcc (fillCell acc x) xs

/-- The accumulator after forward-filling a whole column. -/
def lastAcc (acc : Option ℚ) (l : List (Option ℚ)) : Option ℚ := l.foldl fillCell acc

/-- Column forward fill, pandas .ffill(). -/
def ffillCol (l : List (Option ℚ)) : List (Option ℚ) := ffillAcc none l

/-- Column backward fill, pandas .bfill(): forward fill of the reversed column. -/
def bfillCol (l : List (Option ℚ)) : List (Option ℚ) := (ffillAcc none l.reverse).reverse

/-- Reindex a column onto the calendar, then forward-fill and back-fill
(data_preprocessing.py lines 115 to 131). -/
def filledCol (dates : List ℕ) (vals : List (Option ℚ)) (cal : List ℕ) : List (Option ℚ) :=
  bfillCol (ffillCol (cal.map (colAt dates vals)))

/-- Reindex a whole frame onto the calendar with forward then backward fill. -/
def fillOnCalendar (df : DF) (cal : List ℕ) : DF :=
  ⟨cal, df.cols.map fun c => (c.1, filledCol df.dates c.2 cal)⟩

/-- Later of the two first dates: start_date = max of the two minima
(data_preprocessing.py line 107). -/
def alignStart (stockDf macroDf : DF) : ℕ := max (minNat stockDf.dates) (minNat macroDf.dates)

/-- Earlier of the two last dates: end_date = min of the two maxima
(data_preprocessing.py line 108). -/
def alignEnd (stockDf macroDf : DF) : ℕ := min (maxNat stockDf.dates) (maxNat macroDf.dates)

/-- The merged table of preprocess_data (lines 106 to 139): both inputs are
reindexed onto the shared daily calendar and filled, then joined with
pd.merge_asof on Date with nearest-date matching.  Both processed frames carry
the identical daily calendar, so the nearest-date match degenerates to the
identity join on Date (as the spec itself observes) and the merge is the
column concatenation over that calendar.  Column names of the two inputs are
disjoint apart from Date (asset OHLCV against macro indicators), so no pandas
suffixing arises. -/
def mergedTable (stockDf macroDf : DF) : DF :=
  let cal := dateRange (alignStart stockDf macroDf) (alignEnd stockDf macroDf)
  ⟨cal, (fillOnCalendar stockDf cal).cols ++ (fillOnCalendar macroDf cal).cols⟩

/-- Failure modes of preprocess_data.  The first three mirror the ValueError
sites of the source: the minimum-row gate (line 158), the essential
macro-column check (line 164), the post-merge stock-column check (line 173);
missingOutput mirrors the KeyError pandas raises at line 193 when a selected
output column is absent.  The insufficientOverlap constructor is modelled from
the spec: the spec names a dedicated InsufficientOverlapError for start > end,
but the source contains no such check, so no code path produces it. -/
inductive PrepError
  | notEnoughRows
  | missingEssential (missing : List String)
  | missingAfterMerge (missing : List String)
  | missingOutput (missing : List String)
  | insufficientOverlap
deriving DecidableEq

/-- The engineered columns preprocess_data expects after merging
(data_preprocessing.py lines 144 to 147, the required_macro list). -/
def requiredEngineered : List String :=
  ["Volatility_14", "Momentum_7", "Price_Diff", "Interest_Rate_MA30", "SP500_MA30"]

/-- Default fill for absent engineered columns (lines 149 to 154): each absent
column of the required_macro list becomes a constant column, 2.5 when the name
is Interest_Rate, else 4000, broadcast over every row.  Interest_Rate is not in
the list, so the 2.5 branch can never be taken. -/
def addEngineeredDefaults (df : DF) : DF :=
  ⟨df.dates,
    df.cols ++ (requiredEngineered.filter fun c => c ∉ colNames df).map fun c =>
      (c, List.replicate df.dates.length (some (if c = "Interest_Rate" then (5 : ℚ)/2 else 4000)))⟩

/-- Essential raw macro columns checked at lines 161 to 164. -/
def requiredEssential : List String := ["Interest_Rate", "SP500"]

/-- Stock columns checked after merging, lines 170 to 173 (Date is structural
in this embedding). -/
def requiredColumns : List String := ["Open", "High", "Low", "Close", "Volume"]

/-- Final curated feature set returned at lines 178 to 193 (Date is structural
in this embedding). -/
def requiredOutputFeatures : List String :=
  ["Close", "Days", "Interest_Rate", "SP500", "Interest_Rate_MA30", "SP500_MA30"]

/-- Column selection merged[names]: pandas raises KeyError when a requested
column is absent, modelled as the missingOutput error. -/
def selectCols (df : DF) (names : List String) : Except PrepError DF :=
  let missing := names.filter fun c => c ∉ colNames df
  if missing ≠ [] then .error (.missingOutput missing)
  else .ok ⟨df.dates, names.filterMap fun c => (df.cols.find? fun p => p.1 = c).map fun p => (c, p.2)⟩

/-- Control flow of preprocess_data after the merge (lines 141 to 193),
parametric in the feature-engineering step so that theorems can state that a
result was produced before any feature computation: first the engineered
defaults, then the minimum-row gate, then the essential macro check, then the
feature step, then the stock-column check, then the output selection. -/
def preprocessWith (fe : DF → DF) (stockDf macroDf : DF) : Except PrepError DF :=
  let merged := addEngineeredDefaults (mergedTable stockDf macroDf)
  if merged.dates.length < 30 then .error .notEnoughRows
  else
    let missingEssential := requiredEssential.filter fun c => c ∉ colNames merged
    if missingEssential ≠ [] then .error (.missingEssential missingEssential)
    else
      let feDf := fe merged
      let missingStock := requiredColumns.filter fun c => c ∉ colNames feDf
      if missingStock ≠ [] then .error (.missingAfterMerge missingStock)
      else selectCols feDf requiredOutputFeatures

/-- Modelled from the spec: preprocess_data imports add_technical_indicators
from a feature_engineering module that is absent from the repository sources
(only this caller is available).  Spec section 4.2 says the Feature Engine
derives rolling features from current-and-past values only and drops the first
max(lag window) records, those lacking sufficient history for some derivation;
the longest requirement is 30 (the 30-period volatility over one-period
returns is undefined through row 29), so the first 30 records are dropped.
The final selection of preprocess_data additionally expects a Days column, a
trading-day count per the source comment at line 183.  Only the parts the
settled claims depend on are modelled: existing columns are kept, a Days
column is appended, and the first 30 records are dropped. -/
def specFeatureEngine (df : DF) : DF :=
  let n := df.dates.length
  let withDays : DF := ⟨df.dates, df.cols ++ [("Days", (List.range n).map fun i => some (i : ℚ))]⟩
  ⟨withDays.dates.drop 30, withDays.cols.map fun c => (c.1, c.2.drop 30)⟩

/-- Constant column helper for concrete frames. -/
def mkCol (name : String) (v : ℚ) (n : ℕ) : String × List (Option ℚ) :=
  (name, List.replicate n (some v))

/-- Concrete asset frame with observations only at days 0 and 100: its range
covers any window inside, yet it has no sample inside days 30 to 70. -/
def sparseStock : DF := ⟨[0, 100], [("Close", [some 1, some 2])]⟩

/-- Concrete macro frame with daily observations on days 30 to 70. -/
def denseMacro : DF := ⟨(List.range 41).map (30 + ·), [mkCol "SP500" 4 41]⟩

/-- Concrete three-day asset frame for the positive C1 instance. -/
def tinyStock : DF := ⟨[0, 1, 2], [("Close", [some 1, some 2, some 3])]⟩

/-- Concrete three-day macro frame for the positive C1 instance. -/
def tinyMacro : DF := ⟨[0, 1, 2], [mkCol "SP500" 4 3]⟩

/-- Concrete asset frame on days 0 and 1, for the zero-overlap scenario. -/
def earlyStock : DF := ⟨[0, 1], [("Close", [some 1, some 1])]⟩

/-- Concrete macro frame on days 10 and 11: no date overlap with earlyStock. -/
def lateMacro : DF := ⟨[10, 11], [mkCol "SP500" 1 2, mkCol "Interest_Rate" 1 2]⟩

/-- Concrete 31-day asset frame with the full OHLCV columns. -/
def fullStock : DF :=
  ⟨List.range 31,
    [mkCol "Open" 10 31, mkCol "High" 11 31, mkCol "Low" 9 31,
     mkCol "Close" 10 31, mkCol "Volume" 1000 31]⟩

/-- Concrete 31-day macro frame with the two essential macro columns. -/
def fullMacro : DF := ⟨List.range 31, [mkCol "Interest_Rate" ((5 : ℚ)/2) 31, mkCol "SP500" 4000 31]⟩

/-- The frame preprocess_data returns on the concrete full frames (junk empty
frame if it failed; the theorems show it succeeds). -/
def fullResult : DF := (preprocessWith specFeatureEngine fullStock fullMacro).toOption.getD ⟨[], []⟩

/-- Concrete one-row frame missing every engineered column. -/
def bareFrame : DF := ⟨[0], [("Close", [some 1])]⟩

/- ### Feature Engine: model_training.py, add_technical_indicators (lines 131 to 152) -/

/-- One row of the merged table as the Feature Engine of model_training.py
reads it; only Close, Volume and SP500 enter the derived columns, and the
remaining merged columns carry no NaN after the fill, so they cannot affect
dropna. -/
structure MergedRow where
  date : ℕ
  close : ℚ
  volume : ℚ
  interestRate : ℚ
  sp500 : ℚ
deriving DecidableEq

instance : Inhabited MergedRow := ⟨⟨0, 0, 0, 0, 0⟩⟩

/-- Relative change against the value lag periods earlier, pandas
pct_change(lag): NaN (none) on the first lag entries.  pandas yields an
infinity or NaN when the lagged value is zero; rational division returns a
junk value there, and the theorems restrict to nonzero closes, where the two
agree on which cells are NaN. -/
def pctChangeCol (lag : ℕ) (xs : List ℚ) : List (Option ℚ) :=
  (List.range xs.length).map fun i =>
    if lag ≤ i then some ((xs.getD i 0 - xs.getD (i - lag) 0) / xs.getD (i - lag) 0) else none

/-- Lagged copy of a column, pandas shift(lag): NaN on the first lag entries. -/
def shiftCol (lag : ℕ) (xs : List ℚ) : List (Option ℚ) :=
  (List.range xs.length).map fun i => if lag ≤ i then some (xs.getD (i - lag) 0) else none

/-- Arithmetic mean of a list of rationals, pandas Series.mean. -/
def meanQ (l : List ℚ) : ℚ := l.sum / l.length

/-- Sample variance with the pandas default ddof of 1.  pandas rolling std
stores its square root, an irrational number in general; the square root is
defined on exactly the same cells and no settled claim depends on the numeric
value of a volatility, so the embedding stores the variance to stay within the
rationals. -/
def sampleVar (l : List ℚ) : ℚ := (l.map fun x => (x - meanQ l) ^ 2).sum / ((l.length : ℚ) - 1)

/-- Rolling standard deviation over a window of w cells, pandas
rolling(w).std(): with the default min_periods equal to the window size, the
result is NaN until the window holds w non-NaN observations. -/
def rollingStdCol (w : ℕ) (col : List (Option ℚ)) : List (Option ℚ) :=
  (List.range col.length).map fun i =>
    if w ≤ i + 1 ∧ ((List.range' (i + 1 - w) w).map fun j => col.getD j none).all Option.isSome
    then some (sampleVar ((List.range' (i + 1 - w) w).map fun j => col.getD j none).reduceOption)
    else none

/-- One surviving row of add_technical_indicators: the merged row with every
derived feature defined.  SP500_Relative and Market_Cap_Relative are ratios of
never-NaN columns, so they never introduce NaN (pandas yields an infinity, not
NaN, on a zero divisor with nonzero numerator; the theorems restrict to
nonzero closes and SP500, where the dropna masks agree). -/
structure FeatureRow where
  base : MergedRow
  momentum14 : ℚ
  volatility7 : ℚ
  volatility30 : ℚ
  sp500Relative : ℚ
  closeLag7 : ℚ
  closeLag14 : ℚ
  marketCapRelative : ℚ
deriving DecidableEq

/-- The derived cells at one row index: Momentum_14 = Close.pct_change(14),
Volatility_7 and Volatility_30 = rolling std over 7 and 30 periods of the
one-period returns, Close_Lag_7 and Close_Lag_14 = shifted closes,
SP500_Relative = Close / SP500, Market_Cap_Relative = Close * Volume / SP500
(model_training.py lines 131 to 151); none when any derived cell is NaN, the
row dropna removes. -/
def featureAt (rows : List MergedRow) (i : ℕ) : Option FeatureRow :=
  let c := rows.map (·.close)
  let r := rows.getD i default
  ((pctChangeCol 14 c).getD i none).bind fun m =>
  ((rollingStdCol 7 (pctChangeCol 1 c)).getD i none).bind fun v7 =>
  ((rollingStdCol 30 (pctChangeCol 1 c)).getD i none).bind fun v30 =>
  ((shiftCol 7 c).getD i none).bind fun l7 =>
  ((shiftCol 14 c).getD i none).map fun l14 =>
  ⟨r, m, v7, v30, r.close / r.sp500, l7, l14, r.close * r.volume / r.sp500⟩

/-- The Feature Engine of model_training.py: derive every feature column, then
df.dropna(), keeping exactly the rows whose derived cells are all defined, in
input order. -/
def add_technical_indicators (rows : List MergedRow) : List FeatureRow :=
  (List.range rows.length).filterMap (featureAt rows)

/-- The 40 constant daily rows of the spec scenario: close 100, volume 1000,
interest rate 2.5, sp500 4000. -/
def scenario40 : List MergedRow := (List.range 40).map fun i => ⟨i, 100, 1000, (5 : ℚ)/2, 4000⟩

/- ### Stage A post-processing: prophet_model.py, train_prophet_model (lines 5 to 38) -/

/-- One forecast row of the fitted Prophet model: central value and the two
uncertainty bounds.  The fitted model is an external library whose output the
source does not constrain, so raw forecast rows are unconstrained parameters. -/
structure ForecastRow where
  yhat : ℚ
  yhatLower : ℚ
  yhatUpper : ℚ
deriving DecidableEq

instance : Inhabited ForecastRow := ⟨⟨0, 0, 0⟩⟩

/-- Maximum of a list of rationals, pandas Series.max on a nonempty column. -/
def maxQ : List ℚ → ℚ
  | [] => 0
  | x :: t => t.foldl max x

/-- The configured price ceiling: max_price = data Close max times 2
(prophet_model.py line 11). -/
def priceCap (closes : List ℚ) : ℚ := maxQ closes * 2

/-- The post-processing train_prophet_model applies to the raw forecast
(prophet_model.py lines 36 to 38): yhat, yhat_lower and yhat_upper are each
clipped from below at 0; no clip against the price cap is applied anywhere. -/
def clipForecast (raw : List ForecastRow) : List ForecastRow :=
  raw.map fun r => ⟨max r.yhat 0, max r.yhatLower 0, max r.yhatUpper 0⟩

/- ### Stage B: model_training.py, train_model (lines 50 to 128) -/

/-- One engineered data row entering train_model: date, close and the feature
vector of the eight required features. -/
structure DataRow where
  date : ℕ
  close : ℚ
  features : List ℚ
deriving DecidableEq

instance : Inhabited DataRow := ⟨⟨0, 0, []⟩⟩

/-- Index of the split row, int(len(data) * 0.8) (line 64); 0.8 is exactly
representable enough that the float product floors to 4n/5 for the sizes at
hand. -/
def splitIdx (n : ℕ) : ℕ := 4 * n / 5

/-- The split date, data Date at the split index (line 64). -/
def splitDate (data : List DataRow) : ℕ := (data.getD (splitIdx data.length) default).date

/-- Training partition: rows dated strictly before the split date (line 65). -/
def trainPart (data : List DataRow) : List DataRow :=
  data.filter fun r => r.date < splitDate data

/-- Test partition: rows dated at or after the split date (line 66). -/
def testPart (data : List DataRow) : List DataRow :=
  data.filter fun r => splitDate data ≤ r.date

/-- Stage A central forecast restricted to the test partition:
forecast yhat sliced positionally from len(train) for len(test) rows
(line 105). -/
def prophetPredTest (data : List DataRow) (yhat : List ℚ) : List ℚ :=
  (yhat.drop (trainPart data).length).take (testPart data).length

/-- Stage B residual predictions on the test partition: the fitted
gradient-boosted regressor, an external model treated as an unconstrained
function, applied to each test feature vector (line 107). -/
def residualPredTest (data : List DataRow) (gbm : List ℚ → ℚ) : List ℚ :=
  (testPart data).map fun r => gbm r.features

/-- The hybrid forecast on the test partition: Prophet_Pred + Residual_Pred,
cellwise (line 108). -/
def hybridPredTest (data : List DataRow) (yhat : List ℚ) (gbm : List ℚ → ℚ) : List ℚ :=
  List.zipWith (· + ·) (prophetPredTest data yhat) (residualPredTest data gbm)

/-- Concrete five-row data set for the hybrid composition instance. -/
def hybridData : List DataRow :=
  [⟨0, 10, [1]⟩, ⟨1, 11, [1]⟩, ⟨2, 12, [1]⟩, ⟨3, 13, [1]⟩, ⟨4, 14, [1]⟩]

/-- Concrete Stage A forecast values for the hybrid composition instance. -/
def hybridYhat : List ℚ := [1, 2, 3, 4, 5]

/-- Concrete residual model for the hybrid composition instance. -/
def hybridGbm : List ℚ → ℚ := fun _ => 1

/-- Stage B cross-validation failure mode: the ValueError sklearn raises when
the folds cannot be built. -/
inductive StageBError
  | insufficientTrainingData
deriving DecidableEq

/-- Modelled from the documented behavior of the sklearn dependency:
TimeSeriesSplit(n_splits).split raises ValueError when n_splits + 1 exceeds
the sample count; otherwise the test size is the floor of n_samples over
(n_splits + 1) and fold k trains on the first n_samples - (n_splits - k) *
test_size rows and tests on the next test_size rows.  Returned as (train
length, test length) pairs. -/
def crossValFolds (nSplits nSamples : ℕ) : Except StageBError (List (ℕ × ℕ)) :=
  if nSamples < nSplits + 1 then .error .insufficientTrainingData
  else
    let testSize := nSamples / (nSplits + 1)
    .ok ((List.range nSplits).map fun k => (nSamples - (nSplits - k) * testSize, testSize))

/-- Stage B cross-validation as train_model configures it: five folds over the
training partition (model_training.py line 89). -/
def stageBCrossVal (nTrain : ℕ) : Except StageBError (List (ℕ × ℕ)) := crossValFolds 5 nTrain

/- ### Monthly Aggregator: prophet_model.py, train_prophet_model (lines 40 to 64) -/

/-- Calendar date with explicit year, month (1 to 12) and day of month. -/
structure CalDate where
  year : ℕ
  month : ℕ
  day : ℕ
deriving DecidableEq

instance : Inhabited CalDate := ⟨⟨1970, 1, 1⟩⟩

/-- Chronological order on calendar dates. -/
def dateLe (a b : CalDate) : Bool :=
  decide (a.year < b.year ∨ (a.year = b.year ∧
    (a.month < b.month ∨ (a.month = b.month ∧ a.day ≤ b.day))))

/-- Linear month index of a date, the grouping key behind the YearMonth
strftime string: sorting and grouping by the string agree with sorting and
grouping by this index. -/
def CalDate.ym (d : CalDate) : ℕ := d.year * 12 + (d.month - 1)

/-- Gregorian leap year rule. -/
def isLeapYear (y : ℕ) : Bool := decide (y % 4 = 0 ∧ (y % 100 ≠ 0 ∨ y % 400 = 0))

/-- Length of a calendar month. -/
def daysInMonth (y m : ℕ) : ℕ :=
  if m = 2 then (if isLeapYear y then 29 else 28)
  else if m = 4 ∨ m = 6 ∨ m = 9 ∨ m = 11 then 30 else 31

/-- Date k months earlier, pandas DateOffset(months=k): shift the month and
clamp the day of month to the target month length. -/
def subMonths (d : CalDate) (k : ℕ) : CalDate :=
  let idx := d.ym - k
  let y := idx / 12
  let m := idx % 12 + 1
  ⟨y, m, min d.day (daysInMonth y m)⟩

/-- Latest date of a list, pandas Series.max on the ds column. -/
def maxDate : List CalDate → CalDate
  | [] => default
  | x :: t => t.foldl (fun a b => if dateLe a b then b else a) x

/-- Insert into a sorted duplicate-free list of keys. -/
def insSorted (x : ℕ) : List ℕ → List ℕ
  | [] => [x]
  | y :: t => if x < y then x :: y :: t else if x = y then y :: t else y :: insSorted x t

/-- Sorted distinct keys of a list, the index a pandas groupby produces. -/
def monthKeys (l : List ℕ) : List ℕ := l.foldr insSorted []

/-- Minimum of a list of rationals, pandas Series.min on a nonempty column. -/
def minQ : List ℚ → ℚ
  | [] => 0
  | x :: t => t.foldl min x

/-- One dated forecast row entering the Monthly Aggregator. -/
structure FRow where
  ds : CalDate
  yhatLower : ℚ
  yhat : ℚ
  yhatUpper : ℚ
deriving DecidableEq

/-- Actual monthly averages (prophet_model.py lines 41 to 47): keep the rows
of the trailing eight months, group by calendar month, take the mean close of
each month, months ascending. -/
def actualMonthly (df : List (CalDate × ℚ)) : List (ℕ × ℚ) :=
  let lastDate := maxDate (df.map Prod.fst)
  let recent := df.filter fun p => dateLe (subMonths lastDate 8) p.1
  (monthKeys (recent.map fun p => p.1.ym)).map fun k =>
    (k, meanQ ((recent.filter fun p => p.1.ym = k).map Prod.snd))

/-- The last actual monthly average, actual_monthly Average iloc[-1]
(line 63). -/
def lastActualValue (df : List (CalDate × ℚ)) : ℚ :=
  ((actualMonthly df).map Prod.snd).getLastD 0

/-- Forecast monthly aggregates before the continuity patch (lines 50 to 56):
keep forecast rows dated at or after the last actual date, group by calendar
month, and aggregate each month as (min of yhat_lower, mean of yhat, max of
yhat_upper), months ascending. -/
def forecastMonthlyRaw (forecast : List FRow) (lastDate : CalDate) : List (ℕ × (ℚ × ℚ × ℚ)) :=
  let future := forecast.filter fun p => dateLe lastDate p.ds
  (monthKeys (future.map fun p => p.ds.ym)).map fun k =>
    let g := future.filter fun p => p.ds.ym = k
    (k, (minQ (g.map (·.yhatLower)), meanQ (g.map (·.yhat)), maxQ (g.map (·.yhatUpper))))

/-- The Monthly Aggregator output (lines 50 to 64): the monthly forecast
aggregates truncated to the first 12 months, with the three values of the
first month overwritten by the last actual monthly average. -/
def forecastMonthly (forecast : List FRow) (df : List (CalDate × ℚ)) : List (ℕ × (ℚ × ℚ × ℚ)) :=
  let fm := (forecastMonthlyRaw forecast (maxDate (df.map Prod.fst))).take 12
  match fm with
  | [] => []
  | x :: t => (x.1, (lastActualValue df, lastActualValue df, lastActualValue df)) :: t

/-- Concrete actual series for the Monthly Aggregator instance. -/
def aggDf : List (CalDate × ℚ) := [(⟨2024, 1, 15⟩, 10), (⟨2024, 2, 15⟩, 20)]

/-- Concrete forecast series for the Monthly Aggregator instance. -/
def aggForecast : List FRow :=
  [⟨⟨2024, 2, 15⟩, 1, 2, 3⟩, ⟨⟨2024, 3, 1⟩, 4, 5, 6⟩, ⟨⟨2024, 3, 20⟩, 2, 7, 9⟩]

/- ### Stage A input mutation: prophet_model.py, train_prophet_model (lines 5 to 13) -/

/-- The caller-visible shape of the frame passed to train_prophet_model:
dates as yyyymmdd numbers (their numeric order is the chronological order),
the Close column, and the names with values of the remaining columns. -/
structure PriceFrame where
  rows : List (ℕ × ℚ)
  otherCols : List (String × List ℚ)
deriving DecidableEq

/-- The TSLA structural-adjustment cutoff, pd.to_datetime(2020-08-31)
(prophet_model.py line 8). -/
def tslaSplitDate : ℕ := 20200831

/-- The in-place mutations train_prophet_model applies to the frame its caller
passed (prophet_model.py lines 5 to 13): for ticker TSLA every Close strictly
before the cutoff is multiplied by 5 via data.loc, and cap and floor columns
are assigned onto the frame (cap = twice the maximum adjusted close, floor =
0).  The later rename produces a copy, so these are exactly the caller-visible
changes. -/
def prophetInputMutation (ticker : String) (data : PriceFrame) : PriceFrame :=
  let rows := if ticker = "TSLA"
    then data.rows.map fun p => if p.1 < tslaSplitDate then (p.1, p.2 * 5) else p
    else data.rows
  let maxPrice := maxQ (rows.map Prod.snd) * 2
  ⟨rows, data.otherCols ++
    [("cap", List.replicate rows.length maxPrice), ("floor", List.replicate rows.length 0)]⟩

/-- Concrete one-row TSLA frame dated before the cutoff. -/
def tslaFrame : PriceFrame := ⟨[(20200101, 100)], []⟩

/-- Concrete one-row frame for a ticker without a structural adjustment. -/
def plainFrame : PriceFrame := ⟨[(20200101, 100)], [("Volume", [7])]⟩

/- ### Fill lemmas -/

theorem fillCell_isSome_left {acc : Option ℚ} (x : Option ℚ) (h : acc.isSome) :
    (fillCell acc x).isSome := by
  cases x <;> simp [fillCell, h]

theorem fillCell_isSome_right (acc : Option ℚ) {x : Option ℚ} (h : x.isSome) :
    (fillCell acc x).isSome := by
  cases x <;> simp_all [fillCell]

theorem ffillAcc_all_some {acc : Option ℚ} {l : List (Option ℚ)} (h : acc.isSome) :
    ∀ z ∈ ffillAcc acc l, z.isSome := by
  induction l generalizing acc with
  | nil => simp [ffillAcc]
  | cons x t ih =>
    intro z hz
    simp only [ffillAcc, List.mem_cons] at hz
    rcases hz with rfl | hz
    · exact fillCell_isSome_left x h
    · exact ih (fillCell_isSome_left x h) z hz

theorem ffillAcc_all_of_all {acc : Option ℚ} {l : List (Option ℚ)}
    (h : ∀ x ∈ l, x.isSome) : ∀ z ∈ ffillAcc acc l, z.isSome := by
  induction l generalizing acc with
  | nil => simp [ffillAcc]
  | cons x t ih =>
    intro z hz
    simp only [ffillAcc, List.mem_cons] at hz
    rcases hz with rfl | hz
    · exact fillCell_isSome_right acc (h x (by simp))
    · exact ih (fun y hy => h y (by simp [hy])) z hz

theorem lastAcc_isSome_left {acc : Option ℚ} (l : List (Option ℚ)) (h : acc.isSome) :
    (lastAcc acc l).isSome := by
  induction l generalizing acc with
  | nil => simpa [lastAcc]
  | cons x t ih =>
    simp only [lastAcc, List.foldl_cons]
    exact ih (fillCell_isSome_left x h)

theorem lastAcc_isSome_mem {acc : Option ℚ} {l : List (Option ℚ)} {y : Option ℚ}
    (hy : y ∈ l) (hs : y.isSome) : (lastAcc acc l).isSome := by
  induction l generalizing acc with
  | nil => simp at hy
  | cons x t ih =>
    simp only [lastAcc, List.foldl_cons]
    rcases List.mem_cons.mp hy with rfl | hmem
    · exact lastAcc_isSome_left t (fillCell_isSome_right acc hs)
    · exact ih hmem

theorem ffillAcc_append (acc : Option ℚ) (l₁ l₂ : List (Option ℚ)) :
    ffillAcc acc (l₁ ++ l₂) = ffillAcc acc l₁ ++ ffillAcc (lastAcc acc l₁) l₂ := by
  induction l₁ generalizing acc with
  | nil => simp [ffillAcc, lastAcc]
  | cons x t ih => simp [ffillAcc, lastAcc, ih]

theorem ffillAcc_mem_some {l : List (Option ℚ)} {y : Option ℚ}
    (hy : y ∈ l) (hs : y.isSome) (acc : Option ℚ) : ∃ z ∈ ffillAcc acc l, z.isSome := by
  induction l generalizing acc with
  | nil => simp at hy
  | cons x t ih =>
    rcases List.mem_cons.mp hy with rfl | hmem
    · exact ⟨fillCell acc y, by simp [ffillAcc], fillCell_isSome_right _ hs⟩
    · obtain ⟨z, hz, hzs⟩ := ih hmem (fillCell acc x)
      exact ⟨z, by simp [ffillAcc, hz], hzs⟩

theorem bfill_all_of_all {l : List (Option ℚ)} (h : ∀ x ∈ l, x.isSome) :
    ∀ z ∈ bfillCol l, z.isSome := by
  intro z hz
  simp only [bfillCol, List.mem_reverse] at hz
  exact ffillAcc_all_of_all (fun x hx => h x (List.mem_reverse.mp hx)) z hz

theorem fill_some_of_any : ∀ (l : List (Option ℚ)), (∃ y ∈ l, y.isSome) →
    ∀ z ∈ bfillCol (ffillCol l), z.isSome := by
  intro l
  induction l with
  | nil => rintro ⟨y, hy, -⟩; simp at hy
  | cons x t ih =>
    rintro ⟨y, hy, hys⟩ z hz
    cases x with
    | some v =>
      refine bfill_all_of_all ?_ z hz
      intro w hw
      have hstep : ffillCol (some v :: t) = some v :: ffillAcc (some v) t := rfl
      rw [hstep] at hw
      rcases List.mem_cons.mp hw with rfl | hw
      · simp
      · exact ffillAcc_all_some (by simp) w hw
    | none =>
      have hyt : y ∈ t := by
        rcases List.mem_cons.mp hy with rfl | h
        · simp at hys
        · exact h
      have ih2 := ih ⟨y, hyt, hys⟩
      have hstep : ffillCol (none :: t) = none :: ffillCol t := rfl
      rw [hstep] at hz
      have hrev : (none :: ffillCol t).reverse = (ffillCol t).reverse ++ [none] := by simp
      rw [bfillCol, hrev, ffillAcc_append] at hz
      rw [List.mem_reverse, List.mem_append] at hz
      rcases hz with hz | hz
      · exact ih2 z (by rw [bfillCol, List.mem_reverse]; exact hz)
      · have hz2 : z = lastAcc none (ffillCol t).reverse := by
          simpa [ffillAcc, fillCell] using hz
        subst hz2
        obtain ⟨w, hw, hws⟩ := ffillAcc_mem_some hyt hys none
        exact lastAcc_isSome_mem (List.mem_reverse.mpr hw) hws

theorem colAt_isSome : ∀ (ds : List ℕ) (vs : List (Option ℚ)) (t : ℕ),
    t ∈ ds → ds.length ≤ vs.length → (∀ x ∈ vs, x.isSome) → (colAt ds vs t).isSome := by
  intro ds
  induction ds with
  | nil => simp
  | cons d dt ih =>
    intro vs t ht hlen hv
    cases vs with
    | nil => simp at hlen
    | cons v vt =>
      by_cases hdt : d = t
      · simp only [colAt, if_pos hdt]
        exact hv v (by simp)
      · simp only [colAt, if_neg hdt]
        apply ih vt t ?_ (by simpa using hlen) (fun x hx => hv x (by simp [hx]))
        rcases List.mem_cons.mp ht with rfl | h
        · exact absurd rfl hdt
        · exact h

theorem mem_dateRange {s e d : ℕ} : d ∈ dateRange s e ↔ s ≤ d ∧ d ≤ e := by
  simp only [dateRange, List.mem_map, List.mem_range]
  constructor
  · rintro ⟨i, hi, rfl⟩; omega
  · rintro ⟨h1, h2⟩; exact ⟨d - s, by omega, by omega⟩

theorem filled_all_some {dates : List ℕ} {vals : List (Option ℚ)} {cal : List ℕ}
    (hlen : dates.length ≤ vals.length) (hv : ∀ x ∈ vals, x.isSome)
    (hd : ∃ d ∈ dates, d ∈ cal) : ∀ x ∈ filledCol dates vals cal, x.isSome := by
  obtain ⟨d, hd1, hd2⟩ := hd
  apply fill_some_of_any
  exact ⟨colAt dates vals d, List.mem_map_of_mem _ hd2, colAt_isSome dates vals d hd1 hlen hv⟩

/- ### C1 -/

/-- C1 counterexample: a pair of input series with a non-empty date overlap
(days 30 to 70) after whose fill a required column still contains missing
values.  The asset series has observations only at days 0 and 100; pandas
reindex discards both (they are outside the overlap calendar), so forward and
backward fill have nothing to propagate and every Close cell of the merged
table stays NaN, refuting the no-missing-values part of the claim; the row
count part holds. -/
theorem merged_fill_cex :
    alignStart sparseStock denseMacro ≤ alignEnd sparseStock denseMacro ∧
    (mergedTable sparseStock denseMacro).dates.length
      = alignEnd sparseStock denseMacro - alignStart sparseStock denseMacro + 1 ∧
    ∃ c ∈ (mergedTable sparseStock denseMacro).cols, c.1 = "Close" ∧ ∃ x ∈ c.2, x = none := by
  decide

/-- C1 (amended): for input series with a non-empty date overlap the merged
table of preprocess_data has exactly end minus start plus one rows, and,
provided each input series has at least one observation date inside the
overlap window (the counterexample shows this extra hypothesis is needed),
after forward-fill and back-fill no required column contains a missing value
on any of those rows. -/
theorem merged_rowcount_and_fill (stockDf macroDf : DF)
    (hlenS : ∀ c ∈ stockDf.cols, c.2.length = stockDf.dates.length)
    (hlenM : ∀ c ∈ macroDf.cols, c.2.length = macroDf.dates.length)
    (hsomeS : ∀ c ∈ stockDf.cols, ∀ x ∈ c.2, x.isSome)
    (hsomeM : ∀ c ∈ macroDf.cols, ∀ x ∈ c.2, x.isSome)
    (hdS : ∃ d ∈ stockDf.dates, alignStart stockDf macroDf ≤ d ∧ d ≤ alignEnd stockDf macroDf)
    (hdM : ∃ d ∈ macroDf.dates, alignStart stockDf macroDf ≤ d ∧ d ≤ alignEnd stockDf macroDf) :
    (mergedTable stockDf macroDf).dates.length
      = alignEnd stockDf macroDf - alignStart stockDf macroDf + 1 ∧
    ∀ c ∈ (mergedTable stockDf macroDf).cols, ∀ x ∈ c.2, x.isSome := by
  obtain ⟨d0, hd0, h01, h02⟩ := hdS
  constructor
  · simp only [mergedTable, dateRange, List.length_map, List.length_range]
    omega
  · intro c hc
    simp only [mergedTable, fillOnCalendar, List.mem_append, List.mem_map] at hc
    rcases hc with ⟨c0, hc0, rfl⟩ | ⟨c0, hc0, rfl⟩
    · exact filled_all_some (hlenS c0 hc0).ge (hsomeS c0 hc0)
        ⟨d0, hd0, mem_dateRange.mpr ⟨h01, h02⟩⟩
    · obtain ⟨d1, hd1, h11, h12⟩ := hdM
      exact filled_all_some (hlenM c0 hc0).ge (hsomeM c0 hc0)
        ⟨d1, hd1, mem_dateRange.mpr ⟨h11, h12⟩⟩

/-- C1 witness: the amended statement at a concrete pair of three-day series. -/
theorem merged_rowcount_and_fill_witness :
    (mergedTable tinyStock tinyMacro).dates.length
      = alignEnd tinyStock tinyMacro - alignStart tinyStock tinyMacro + 1 ∧
    ∀ c ∈ (mergedTable tinyStock tinyMacro).cols, ∀ x ∈ c.2, x.isSome :=
  merged_rowcount_and_fill tinyStock tinyMacro (by decide) (by decide) (by decide) (by decide)
    (by decide) (by decide)

/- ### C2 -/

/-- C2 counterexample: two concrete series with zero date overlap make
preprocess_data fail with the minimum-row ValueError (notEnoughRows), not with
a dedicated overlap error: no code path produces insufficientOverlap. -/
theorem overlap_error_cex :
    alignEnd earlyStock lateMacro < alignStart earlyStock lateMacro ∧
    preprocessWith specFeatureEngine earlyStock lateMacro = .error .notEnoughRows ∧
    PrepError.notEnoughRows ≠ PrepError.insufficientOverlap := by
  refine ⟨by decide, by rfl, by decide⟩

/-- C2 (amended): whenever the two series have no date overlap (end before
start), preprocess_data fails with the minimum-row ValueError — the empty
overlap calendar yields zero merged rows, below the 30-row gate — and it does
so for every possible feature-engineering step, hence before any feature
computation occurs. -/
theorem no_overlap_rowgate (fe : DF → DF) (stockDf macroDf : DF)
    (h : alignEnd stockDf macroDf < alignStart stockDf macroDf) :
    preprocessWith fe stockDf macroDf = .error .notEnoughRows := by
  have hcal : dateRange (alignStart stockDf macroDf) (alignEnd stockDf macroDf) = [] := by
    have : alignEnd stockDf macroDf + 1 - alignStart stockDf macroDf = 0 := by omega
    simp [dateRange, this]
  simp [preprocessWith, addEngineeredDefaults, mergedTable, hcal]

/-- C2 witness: the amended statement at the concrete zero-overlap pair. -/
theorem no_overlap_rowgate_witness :
    preprocessWith specFeatureEngine earlyStock lateMacro = .error .notEnoughRows :=
  no_overlap_rowgate specFeatureEngine earlyStock lateMacro (by decide)

/- ### C10 -/

theorem find_default_col (df : DF) (c : String) :
    ∀ (l : List String), c ∈ l → c ∉ colNames df →
    (((l.filter fun s => s ∉ colNames df).map fun s =>
        (s, List.replicate df.dates.length
          (some (if s = "Interest_Rate" then (5 : ℚ)/2 else 4000)))).find?
      fun p => p.1 = c)
    = some (c, List.replicate df.dates.length
        (some (if c = "Interest_Rate" then (5 : ℚ)/2 else 4000))) := by
  intro l
  induction l with
  | nil => simp
  | cons a t ih =>
    intro hc hnot
    by_cases hac : a = c
    · subst hac
      rw [List.filter_cons, if_pos (by simpa using hnot)]
      simp only [List.map_cons]
      rw [List.find?_cons_of_pos _ (by simp)]
    · have hct : c ∈ t := by
        rcases List.mem_cons.mp hc with rfl | h
        · exact absurd rfl hac
        · exact h
      rw [List.filter_cons]
      by_cases hmem : a ∈ colNames df
      · rw [if_neg (by simpa using hmem)]
        exact ih hct hnot
      · rw [if_pos (by simpa using hmem)]
        simp only [List.map_cons]
        rw [List.find?_cons_of_neg _ (by simpa using hac)]
        exact ih hct hnot

/-- C10: when an engineered column of the required_macro list is absent from
the merged table, preprocess_data does not fail there: the column is filled
with the constant 4000 on every row; and the 2.5 default is unreachable
because Interest_Rate is not in the checked list. -/
theorem missing_engineered_default_fill (df : DF) (c : String)
    (hc : c ∈ requiredEngineered) (hmiss : c ∉ colNames df) :
    getCol (addEngineeredDefaults df) c
      = some (List.replicate df.dates.length (some 4000)) ∧
    "Interest_Rate" ∉ requiredEngineered := by
  refine ⟨?_, by decide⟩
  have hne : c ≠ "Interest_Rate" := by
    simp only [requiredEngineered, List.mem_cons, List.not_mem_nil, or_false] at hc
    rcases hc with rfl | rfl | rfl | rfl | rfl <;> decide
  have hfind := find_default_col df c requiredEngineered hc hmiss
  rw [if_neg hne] at hfind
  have h1 : (df.cols.find? fun p => p.1 = c) = none := by
    apply List.find?_eq_none.mpr
    intro x hx
    simp only [decide_eq_true_eq]
    intro hxc
    exact hmiss (hxc ▸ List.mem_map_of_mem Prod.fst hx)
  simp only [getCol, addEngineeredDefaults]
  rw [List.find?_append, h1, Option.none_or, hfind, Option.map_some']

/-- C10 witness: the statement at a concrete frame missing Price_Diff. -/
theorem missing_engineered_default_fill_witness :
    getCol (addEngineeredDefaults bareFrame) "Price_Diff"
      = some (List.replicate bareFrame.dates.length (some 4000)) ∧
    "Interest_Rate" ∉ requiredEngineered :=
  missing_engineered_default_fill bareFrame "Price_Diff" (by decide) (by decide)

/- ### C9 -/

theorem filterMap_found_names (d : DF) :
    ∀ (names : List String), (∀ c ∈ names, (d.cols.find? fun p => p.1 = c).isSome) →
    ((names.filterMap fun c =>
        (d.cols.find? fun p => p.1 = c).map fun p => (c, p.2)).map Prod.fst)
      = names := by
  intro names
  induction names with
  | nil => simp
  | cons a t ih =>
    intro h
    obtain ⟨p, hp⟩ := Option.isSome_iff_exists.mp (h a (by simp))
    simp only [List.filterMap_cons, hp, Option.map_some', List.map_cons]
    rw [ih (fun c hc => h c (by simp [hc]))]

/-- C9 (amended): every frame preprocess_data returns carries exactly the
curated feature columns Close, Days, Interest_Rate, SP500, Interest_Rate_MA30
and SP500_MA30 (plus the structural Date column) — the asset fields Open,
High, Low and Volume are dropped by the final selection — and its rows are
exactly those the feature-engineering step leaves of the overlap calendar,
one per surviving date; both for every feature-engineering step. -/
theorem output_columns (fe : DF → DF) (stockDf macroDf : DF) (df : DF)
    (h : preprocessWith fe stockDf macroDf = .ok df) :
    colNames df = requiredOutputFeatures ∧
    df.dates = (fe (addEngineeredDefaults (mergedTable stockDf macroDf))).dates := by
  simp only [preprocessWith, selectCols] at h
  split at h
  · exact absurd h (by simp)
  · split at h
    · exact absurd h (by simp)
    · split at h
      · exact absurd h (by simp)
      · split at h
        · exact absurd h (by simp)
        · rename_i hmiss
          rw [Except.ok.injEq] at h
          subst h
          refine ⟨?_, rfl⟩
          simp only [colNames]
          apply filterMap_found_names
          intro c hc
          have hempty := not_ne_iff.mp hmiss
          rw [List.filter_eq_nil_iff] at hempty
          have hcmem : c ∈ colNames
              (fe (addEngineeredDefaults (mergedTable stockDf macroDf))) := by
            have := hempty c hc
            simpa using this
          rw [List.find?_isSome]
          obtain ⟨x, hx, hfst⟩ := List.mem_map.mp hcmem
          exact ⟨x, hx, by simp [hfst]⟩

/-- C9 counterexample: a concrete successful preprocess_data run whose input
carried the full OHLCV columns but whose returned table carries neither Open
nor Volume, refuting the claim that every returned record carries the asset
OHLCV fields. -/
theorem output_columns_cex :
    "Open" ∈ colNames fullStock ∧
    preprocessWith specFeatureEngine fullStock fullMacro = .ok fullResult ∧
    "Open" ∉ colNames fullResult ∧ "Volume" ∉ colNames fullResult := by
  refine ⟨by decide, by rfl, by decide, by decide⟩

/-- C9 witness: the amended statement at the concrete successful run. -/
theorem output_columns_witness :
    colNames fullResult = requiredOutputFeatures ∧
    fullResult.dates
      = (specFeatureEngine (addEngineeredDefaults (mergedTable fullStock fullMacro))).dates :=
  output_columns specFeatureEngine fullStock fullMacro fullResult (by rfl)

/- ### C3 -/

theorem getD_map_range {α : Type} (f : ℕ → α) {n i : ℕ} (hi : i < n) (d : α) :
    ((List.range n).map f).getD i d = f i := by
  rw [List.getD_eq_getElem _ d (by simpa using hi)]
  simp [List.getElem_map, List.getElem_range]

theorem getD_out {α : Type} (l : List α) (d : α) {i : ℕ} (h : l.length ≤ i) :
    l.getD i d = d := by
  simp [List.getD_eq_getElem?_getD, List.getElem?_eq_none h]

theorem pctChangeCol_length (lag : ℕ) (xs : List ℚ) :
    (pctChangeCol lag xs).length = xs.length := by
  simp [pctChangeCol]

theorem rollingStdCol_length (w : ℕ) (col : List (Option ℚ)) :
    (rollingStdCol w col).length = col.length := by
  simp [rollingStdCol]

theorem shiftCol_length (lag : ℕ) (xs : List ℚ) :
    (shiftCol lag xs).length = xs.length := by
  simp [shiftCol]

theorem pctChange_getD_isSome {lag : ℕ} {xs : List ℚ} {i : ℕ} (hi : i < xs.length) :
    ((pctChangeCol lag xs).getD i none).isSome ↔ lag ≤ i := by
  rw [pctChangeCol, getD_map_range _ hi]
  split <;> simp_all

theorem shift_getD_isSome {lag : ℕ} {xs : List ℚ} {i : ℕ} (hi : i < xs.length) :
    ((shiftCol lag xs).getD i none).isSome ↔ lag ≤ i := by
  rw [shiftCol, getD_map_range _ hi]
  split <;> simp_all

theorem rollingStd_getD_isSome {w : ℕ} (hw : 0 < w) {xs : List ℚ} {i : ℕ}
    (hi : i < xs.length) :
    ((rollingStdCol w (pctChangeCol 1 xs)).getD i none).isSome ↔ w ≤ i := by
  have hlen : (pctChangeCol 1 xs).length = xs.length := pctChangeCol_length 1 xs
  rw [rollingStdCol, hlen, getD_map_range _ hi]
  split
  · rename_i hcond
    obtain ⟨h1, hall⟩ := hcond
    simp only [Option.isSome_some, true_iff]
    rw [List.all_eq_true] at hall
    by_contra hlt
    push_neg at hlt
    have h0 : (0 : ℕ) ∈ List.range' (i + 1 - w) w := by
      rw [List.mem_range'_1]
      omega
    have hz := hall _ (List.mem_map_of_mem _ h0)
    rw [pctChange_getD_isSome (by omega)] at hz
    omega
  · rename_i hcond
    simp only [Option.isSome_none, Bool.false_eq_true, false_iff]
    intro hwi
    apply hcond
    refine ⟨by omega, ?_⟩
    rw [List.all_eq_true]
    intro x hx
    obtain ⟨j, hj, rfl⟩ := List.mem_map.mp hx
    rw [List.mem_range'_1] at hj
    rw [pctChange_getD_isSome (by omega)]
    omega

theorem featureAt_eq_none {rows : List MergedRow} {i : ℕ} (h : i < 30 ∨ rows.length ≤ i) :
    featureAt rows i = none := by
  have hlen : (rows.map (·.close)).length = rows.length := by simp
  rcases h with h30 | hout
  · by_cases hi : i < rows.length
    · by_cases h14 : i < 14
      · have hm : (pctChangeCol 14 (rows.map (·.close))).getD i none = none := by
          apply Option.not_isSome_iff_eq_none.mp
          rw [pctChange_getD_isSome (by omega)]
          omega
        simp only [featureAt]
        rw [hm]
        rfl
      · obtain ⟨m, hm⟩ := Option.isSome_iff_exists.mp
          (show ((pctChangeCol 14 (rows.map (·.close))).getD i none).isSome by
            rw [pctChange_getD_isSome (by omega)]; omega)
        obtain ⟨v7, hv7⟩ := Option.isSome_iff_exists.mp
          (show ((rollingStdCol 7 (pctChangeCol 1 (rows.map (·.close)))).getD i none).isSome by
            rw [rollingStd_getD_isSome (by norm_num) (by omega)]; omega)
        have hv30 : (rollingStdCol 30 (pctChangeCol 1 (rows.map (·.close)))).getD i none
            = none := by
          apply Option.not_isSome_iff_eq_none.mp
          rw [rollingStd_getD_isSome (by norm_num) (by omega)]
          omega
        simp only [featureAt]
        rw [hm]
        simp only [Option.some_bind]
        rw [hv7]
        simp only [Option.some_bind]
        rw [hv30]
        rfl
    · have hm : (pctChangeCol 14 (rows.map (·.close))).getD i none = none :=
        getD_out _ _ (by rw [pctChangeCol_length]; omega)
      simp only [featureAt]
      rw [hm]
      rfl
  · have hm : (pctChangeCol 14 (rows.map (·.close))).getD i none = none :=
      getD_out _ _ (by rw [pctChangeCol_length]; omega)
    simp only [featureAt]
    rw [hm]
    rfl

theorem featureAt_some {rows : List MergedRow} {i : ℕ} (h30 : 30 ≤ i)
    (hi : i < rows.length) :
    ∃ fr, featureAt rows i = some fr ∧ fr.base = rows.getD i default := by
  have hilen : i < (rows.map (·.close)).length := by simpa using hi
  obtain ⟨m, hm⟩ := Option.isSome_iff_exists.mp
    (show ((pctChangeCol 14 (rows.map (·.close))).getD i none).isSome by
      rw [pctChange_getD_isSome hilen]; omega)
  obtain ⟨v7, hv7⟩ := Option.isSome_iff_exists.mp
    (show ((rollingStdCol 7 (pctChangeCol 1 (rows.map (·.close)))).getD i none).isSome by
      rw [rollingStd_getD_isSome (by norm_num) hilen]; omega)
  obtain ⟨v30, hv30⟩ := Option.isSome_iff_exists.mp
    (show ((rollingStdCol 30 (pctChangeCol 1 (rows.map (·.close)))).getD i none).isSome by
      rw [rollingStd_getD_isSome (by norm_num) hilen]; omega)
  obtain ⟨l7, hl7⟩ := Option.isSome_iff_exists.mp
    (show ((shiftCol 7 (rows.map (·.close))).getD i none).isSome by
      rw [shift_getD_isSome hilen]; omega)
  obtain ⟨l14, hl14⟩ := Option.isSome_iff_exists.mp
    (show ((shiftCol 14 (rows.map (·.close))).getD i none).isSome by
      rw [shift_getD_isSome hilen]; omega)
  refine ⟨⟨rows.getD i default, m, v7, v30,
    (rows.getD i default).close / (rows.getD i default).sp500, l7, l14,
    (rows.getD i default).close * (rows.getD i default).volume
      / (rows.getD i default).sp500⟩, ?_, rfl⟩
  simp only [featureAt]
  rw [hm]
  simp only [Option.some_bind]
  rw [hv7]
  simp only [Option.some_bind]
  rw [hv30]
  simp only [Option.some_bind]
  rw [hl7]
  simp only [Option.some_bind]
  rw [hl14]
  rfl

theorem filterMap_congr_map {α β γ : Type} (l : List α) (f : α → Option β) (h : β → γ)
    (p : α → γ) (hf : ∀ a ∈ l, ∃ b, f a = some b ∧ h b = p a) :
    (l.filterMap f).map h = l.map p := by
  induction l with
  | nil => simp
  | cons a t ih =>
    obtain ⟨b, hb, hhb⟩ := hf a (by simp)
    simp only [List.filterMap_cons, hb, List.map_cons, hhb]
    rw [ih (fun x hx => hf x (by simp [hx]))]

theorem map_getD_range'_drop {α : Type} [Inhabited α] (l : List α) {k : ℕ}
    (hk : k ≤ l.length) :
    ((List.range' k (l.length - k)).map fun i => l.getD i default) = l.drop k := by
  apply List.ext_getElem
  · simp
  · intro i h1 h2
    simp only [List.getElem_map, List.getElem_range', List.getElem_drop]
    have hb : k + 1 * i < l.length := by
      simp only [List.length_map, List.length_range'] at h1
      omega
    rw [List.getD_eq_getElem _ _ hb]
    congr 1
    omega

theorem add_technical_indicators_shape (rows : List MergedRow) :
    (add_technical_indicators rows).map (·.base) = rows.drop 30 ∧
    (add_technical_indicators rows).length = rows.length - 30 := by
  by_cases h30 : 30 ≤ rows.length
  · have hsplit : List.range rows.length
        = List.range' 0 30 ++ List.range' 30 (rows.length - 30) := by
      have h2 := List.range'_append 0 30 (rows.length - 30) 1
      simp at h2
      rw [List.range_eq_range' rows.length, h2]
      congr 1
      omega
    have hA : (List.range' 0 30).filterMap (featureAt rows) = [] := by
      apply List.filterMap_eq_nil_iff.mpr
      intro i hi
      rw [List.mem_range'_1] at hi
      exact featureAt_eq_none (Or.inl (by omega))
    have hBmap : ((List.range' 30 (rows.length - 30)).filterMap (featureAt rows)).map (·.base)
        = (List.range' 30 (rows.length - 30)).map fun i => rows.getD i default := by
      apply filterMap_congr_map
      intro i hi
      rw [List.mem_range'_1] at hi
      exact featureAt_some (by omega) (by omega)
    constructor
    · rw [add_technical_indicators, hsplit, List.filterMap_append, hA, List.nil_append,
        hBmap, map_getD_range'_drop rows (by omega)]
    · have hlen1 : ((List.range' 30 (rows.length - 30)).filterMap (featureAt rows)).length
          = rows.length - 30 := by
        have := congrArg List.length hBmap
        simpa using this
      rw [add_technical_indicators, hsplit, List.filterMap_append, hA, List.nil_append, hlen1]
  · push_neg at h30
    have hA : (List.range rows.length).filterMap (featureAt rows) = [] := by
      apply List.filterMap_eq_nil_iff.mpr
      intro i hi
      rw [List.mem_range] at hi
      exact featureAt_eq_none (Or.inl (by omega))
    refine ⟨?_, ?_⟩
    · rw [add_technical_indicators, hA, List.drop_eq_nil_of_le (by omega)]
      simp
    · rw [add_technical_indicators, hA]
      simp
      omega

/-- C3 counterexample: the 40-row constant scenario (close 100, volume 1000,
interest rate 2.5, sp500 4000) yields 10 output rows, not 26: the longest
derivation requirement is the 30-period volatility window over one-period
returns, which is NaN up to row 29, not the 14-period momentum lag. -/
theorem feature_drop_cex :
    scenario40.length = 40 ∧
    (add_technical_indicators scenario40).length = 10 ∧
    (add_technical_indicators scenario40).length ≠ 26 := by
  have hlen : scenario40.length = 40 := by simp [scenario40]
  have h := (add_technical_indicators_shape scenario40).2
  rw [hlen] at h
  exact ⟨hlen, by omega, by omega⟩

/-- C3 (amended): for every merged table of n rows whose closes and SP500
levels are nonzero (the region where the rational embedding matches the
pandas NaN semantics), the Feature Engine output has exactly n minus 30 rows
(the longest lag or window requirement, the 30-period volatility over
one-period returns), the earliest rows being dropped entirely and never
filled with a synthetic value; in particular 40 constant rows yield 10
output rows. -/
theorem feature_output_length (rows : List MergedRow)
    (hz : ∀ r ∈ rows, r.close ≠ 0 ∧ r.sp500 ≠ 0) :
    (add_technical_indicators rows).map (·.base) = rows.drop 30 ∧
    (add_technical_indicators rows).length = rows.length - 30 :=
  add_technical_indicators_shape rows

/-- C3 witness: the amended statement at the 40-row constant scenario. -/
theorem feature_output_length_witness :
    (add_technical_indicators scenario40).map (·.base) = scenario40.drop 30 ∧
    (add_technical_indicators scenario40).length = scenario40.length - 30 :=
  feature_output_length scenario40 (by
    intro r hr
    simp only [scenario40, List.mem_map] at hr
    obtain ⟨i, hi, rfl⟩ := hr
    exact ⟨by norm_num, by norm_num⟩)

/- ### C4 -/

/-- C4 counterexample: with observed closes topping at 100 the configured
price ceiling is 200, yet a raw forecast row (300, 0, 400) passes the
post-processing unchanged: the source clips only at the zero floor and never
against the ceiling, so the returned forecast exceeds the ceiling. -/
theorem stageA_ceiling_cex :
    priceCap [100] = 200 ∧
    clipForecast [⟨300, 0, 400⟩] = [⟨300, 0, 400⟩] ∧
    ¬ (∀ r ∈ clipForecast [⟨300, 0, 400⟩],
        r.yhat ≤ priceCap [100] ∧ r.yhatUpper ≤ priceCap [100]) := by
  have hcap : priceCap [100] = 200 := by
    simp only [priceCap, maxQ, List.foldl_nil]
    norm_num
  have hclip : clipForecast [⟨300, 0, 400⟩] = [⟨300, 0, 400⟩] := by
    simp only [clipForecast, List.map_cons, List.map_nil]
    rw [max_eq_left (by norm_num : (0 : ℚ) ≤ 300), max_self,
      max_eq_left (by norm_num : (0 : ℚ) ≤ 400)]
  refine ⟨hcap, hclip, ?_⟩
  intro h
  have hm : (⟨300, 0, 400⟩ : ForecastRow) ∈ clipForecast [⟨300, 0, 400⟩] := by
    rw [hclip]
    exact List.mem_singleton_self _
  have hle := (h _ hm).1
  rw [hcap] at hle
  norm_num at hle

/-- C4 (amended): the Stage A central forecast and both uncertainty bounds
returned by train_prophet_model are clipped from below at zero, hence never
negative, for every raw model output; no upper clip against the price ceiling
is applied. -/
theorem stageA_floor_clip (raw : List ForecastRow) :
    ∀ r ∈ clipForecast raw, 0 ≤ r.yhat ∧ 0 ≤ r.yhatLower ∧ 0 ≤ r.yhatUpper := by
  intro r hr
  simp only [clipForecast, List.mem_map] at hr
  obtain ⟨s, hs, rfl⟩ := hr
  exact ⟨le_max_right _ _, le_max_right _ _, le_max_right _ _⟩

/-- C4 witness: the amended statement at a concrete raw forecast row. -/
theorem stageA_floor_clip_witness :
    0 ≤ ((clipForecast [⟨-5, -1, 2⟩]).getD 0 default).yhat ∧
    0 ≤ ((clipForecast [⟨-5, -1, 2⟩]).getD 0 default).yhatLower ∧
    0 ≤ ((clipForecast [⟨-5, -1, 2⟩]).getD 0 default).yhatUpper :=
  stageA_floor_clip [⟨-5, -1, 2⟩] ((clipForecast [⟨-5, -1, 2⟩]).getD 0 default) (by decide)

/- ### C5 -/

theorem getD_zipWith_add (a b : List ℚ) (i : ℕ)
    (h : i < (List.zipWith (· + ·) a b).length) :
    (List.zipWith (· + ·) a b).getD i 0 = a.getD i 0 + b.getD i 0 := by
  induction a generalizing b i with
  | nil => simp at h
  | cons x t ih =>
    cases b with
    | nil => simp at h
    | cons y u =>
      cases i with
      | zero => rfl
      | succ j =>
        have hj : j < (List.zipWith (· + ·) t u).length := by
          simpa using h
        simpa [List.getD_cons_succ] using ih u j hj

/-- C5: for every date of the test partition the hybrid forecast equals the
Stage A forecast for that date plus the Stage B predicted residual for that
date, exactly: the additive composition Hybrid_Pred = Prophet_Pred +
Residual_Pred holds cellwise for every data set, forecast and fitted residual
model. -/
theorem hybrid_additive (data : List DataRow) (yhat : List ℚ) (gbm : List ℚ → ℚ) (i : ℕ)
    (h : i < (hybridPredTest data yhat gbm).length) :
    (hybridPredTest data yhat gbm).getD i 0
      = (prophetPredTest data yhat).getD i 0 + (residualPredTest data gbm).getD i 0 :=
  getD_zipWith_add _ _ i h

/-- C5 witness: the composition law at a concrete five-row data set. -/
theorem hybrid_additive_witness :
    (hybridPredTest hybridData hybridYhat hybridGbm).getD 0 0
      = (prophetPredTest hybridData hybridYhat).getD 0 0
        + (residualPredTest hybridData hybridGbm).getD 0 0 :=
  hybrid_additive hybridData hybridYhat hybridGbm 0 (by decide)

/- ### C6 -/

/-- C6 counterexample: a training partition of 10 rows under the configured
five-fold cross-validation does not raise: TimeSeriesSplit(5) requires only
six samples, and on ten samples builds five valid folds of test size one. -/
theorem stageB_folds_cex :
    stageBCrossVal 10 = .ok [(5, 1), (6, 1), (7, 1), (8, 1), (9, 1)] := by
  rfl

/-- C6 (amended): Stage B cross-validation fails with the sklearn ValueError
(the claim's InsufficientTrainingDataError) precisely when the training
partition has fewer rows than n_splits + 1 = 6; a ten-row partition does not
raise. -/
theorem stageB_folds_error_iff (n : ℕ) :
    stageBCrossVal n = .error .insufficientTrainingData ↔ n < 6 := by
  constructor
  · intro h
    by_contra h6
    push_neg at h6
    simp only [stageBCrossVal, crossValFolds] at h
    rw [if_neg (by omega)] at h
    exact absurd h (by simp)
  · intro h6
    simp only [stageBCrossVal, crossValFolds]
    rw [if_pos (by omega)]

/- ### C7 -/

theorem insSorted_ne_nil (x : ℕ) (l : List ℕ) : insSorted x l ≠ [] := by
  cases l with
  | nil => simp [insSorted]
  | cons y t =>
    simp only [insSorted]
    split
    · simp
    · split <;> simp

/-- C7: the Monthly Aggregator output has at most 12 forecast months; the
first month's three values (Low, Average, High) are all overwritten with the
last actual monthly average; every later month's entry is exactly (min of the
lower bound, mean of the central forecast, max of the upper bound) over that
month's bucket of the forecast horizon; and each actual monthly aggregate is
the mean close of its month over the trailing eight months. -/
theorem monthly_aggregator_spec (forecast : List FRow) (df : List (CalDate × ℚ))
    (hf : forecast.filter (fun p => dateLe (maxDate (df.map Prod.fst)) p.ds) ≠ []) :
    (forecastMonthly forecast df).length ≤ 12 ∧
    (forecastMonthly forecast df ≠ [] ∧
      ((forecastMonthly forecast df).headD (0, 0, 0, 0)).2
        = (lastActualValue df, lastActualValue df, lastActualValue df)) ∧
    (∀ e ∈ (forecastMonthly forecast df).drop 1,
      e.2 = (minQ (((forecast.filter fun p => dateLe (maxDate (df.map Prod.fst)) p.ds).filter
                fun p => p.ds.ym = e.1).map (·.yhatLower)),
             meanQ (((forecast.filter fun p => dateLe (maxDate (df.map Prod.fst)) p.ds).filter
                fun p => p.ds.ym = e.1).map (·.yhat)),
             maxQ (((forecast.filter fun p => dateLe (maxDate (df.map Prod.fst)) p.ds).filter
                fun p => p.ds.ym = e.1).map (·.yhatUpper)))) ∧
    (∀ k v, (k, v) ∈ actualMonthly df →
      v = meanQ (((df.filter fun p => dateLe (subMonths (maxDate (df.map Prod.fst)) 8) p.1).filter
          fun p => p.1.ym = k).map Prod.snd)) := by
  obtain ⟨p0, prest, hp⟩ := List.exists_cons_of_ne_nil hf
  have hkeys_ne : monthKeys ((forecast.filter fun p =>
      dateLe (maxDate (df.map Prod.fst)) p.ds).map fun p => p.ds.ym) ≠ [] := by
    rw [hp, List.map_cons]
    simp only [monthKeys, List.foldr_cons]
    exact insSorted_ne_nil _ _
  have hraw_ne : forecastMonthlyRaw forecast (maxDate (df.map Prod.fst)) ≠ [] := by
    simp only [forecastMonthlyRaw]
    intro hcontra
    exact hkeys_ne (List.map_eq_nil_iff.mp hcontra)
  obtain ⟨r0, rrest, hr⟩ := List.exists_cons_of_ne_nil hraw_ne
  cases hfm : (forecastMonthlyRaw forecast (maxDate (df.map Prod.fst))).take 12 with
  | nil =>
    exfalso
    have hlen := congrArg List.length hfm
    rw [List.length_take, hr] at hlen
    simp only [List.length_cons, List.length_nil] at hlen
    omega
  | cons x t =>
    have hcore : forecastMonthly forecast df
        = (x.1, (lastActualValue df, lastActualValue df, lastActualValue df)) :: t := by
      simp only [forecastMonthly]
      rw [hfm]
    refine ⟨?_, ⟨?_, ?_⟩, ?_, ?_⟩
    · have hle := List.length_take_le 12 (forecastMonthlyRaw forecast (maxDate (df.map Prod.fst)))
      rw [hfm] at hle
      rw [hcore]
      simpa using hle
    · rw [hcore]
      exact List.cons_ne_nil _ _
    · rw [hcore]
      rfl
    · intro e he
      rw [hcore] at he
      simp only [List.drop_one, List.tail_cons] at he
      have he2 : e ∈ forecastMonthlyRaw forecast (maxDate (df.map Prod.fst)) := by
        apply List.mem_of_mem_take
        rw [hfm]
        exact List.mem_cons_of_mem _ he
      simp only [forecastMonthlyRaw] at he2
      obtain ⟨k, hk, rfl⟩ := List.mem_map.mp he2
      rfl
    · intro k v hkv
      simp only [actualMonthly] at hkv
      obtain ⟨k0, hk0, heq⟩ := List.mem_map.mp hkv
      simp only [Prod.mk.injEq] at heq
      obtain ⟨h1, h2⟩ := heq
      subst h1
      exact h2.symm

/-- C7 witness: the aggregator statement at a concrete actual series and a
concrete forecast horizon. -/
theorem monthly_aggregator_spec_witness :
    (forecastMonthly aggForecast aggDf).length ≤ 12 ∧
    (forecastMonthly aggForecast aggDf ≠ [] ∧
      ((forecastMonthly aggForecast aggDf).headD (0, 0, 0, 0)).2
        = (lastActualValue aggDf, lastActualValue aggDf, lastActualValue aggDf)) ∧
    (∀ e ∈ (forecastMonthly aggForecast aggDf).drop 1,
      e.2 = (minQ (((aggForecast.filter fun p => dateLe (maxDate (aggDf.map Prod.fst)) p.ds).filter
                fun p => p.ds.ym = e.1).map (·.yhatLower)),
             meanQ (((aggForecast.filter fun p => dateLe (maxDate (aggDf.map Prod.fst)) p.ds).filter
                fun p => p.ds.ym = e.1).map (·.yhat)),
             maxQ (((aggForecast.filter fun p => dateLe (maxDate (aggDf.map Prod.fst)) p.ds).filter
                fun p => p.ds.ym = e.1).map (·.yhatUpper)))) ∧
    (∀ k v, (k, v) ∈ actualMonthly aggDf →
      v = meanQ (((aggDf.filter fun p =>
              dateLe (subMonths (maxDate (aggDf.map Prod.fst)) 8) p.1).filter
          fun p => p.1.ym = k).map Prod.snd)) :=
  monthly_aggregator_spec aggForecast aggDf (by decide)

/- ### C8 -/

/-- C8 counterexample: after train_prophet_model runs for ticker TSLA on a
frame holding one pre-cutoff row, the caller's frame no longer holds the same
values: the Close value became 500 (times 5) and the column set gained cap and
floor, refuting the claim that each stage leaves its input unchanged. -/
theorem stageA_mutation_cex :
    tslaFrame.rows = [(20200101, 100)] ∧ tslaFrame.otherCols = [] ∧
    (prophetInputMutation "TSLA" tslaFrame).rows = [(20200101, 500)] ∧
    (prophetInputMutation "TSLA" tslaFrame).otherCols.map Prod.fst = ["cap", "floor"] := by
  refine ⟨rfl, rfl, ?_, ?_⟩
  · norm_num [prophetInputMutation, tslaFrame, tslaSplitDate]
  · simp [prophetInputMutation, tslaFrame]

/-- C8 (amended): train_prophet_model mutates the frame its caller passed: it
always appends cap and floor columns, and for ticker TSLA it multiplies every
Close dated before 2020-08-31 by 5; the dates are preserved, and for any other
ticker the rows (hence the Close values) are preserved. -/
theorem stageA_mutation_shape (ticker : String) (data : PriceFrame) :
    (prophetInputMutation ticker data).otherCols.map Prod.fst
      = data.otherCols.map Prod.fst ++ ["cap", "floor"] ∧
    (prophetInputMutation ticker data).rows.map Prod.fst = data.rows.map Prod.fst ∧
    (ticker ≠ "TSLA" → (prophetInputMutation ticker data).rows = data.rows) := by
  refine ⟨?_, ?_, ?_⟩
  · simp [prophetInputMutation]
  · simp only [prophetInputMutation]
    split
    · rw [List.map_map]
      apply List.map_congr_left
      intro p hp
      simp only [Function.comp_apply]
      split <;> rfl
    · rfl
  · intro hne
    simp [prophetInputMutation, hne]

/-- C8 witness: the amended statement at a concrete non-TSLA call. -/
theorem stageA_mutation_shape_witness :
    (prophetInputMutation "AAPL" plainFrame).otherCols.map Prod.fst
      = plainFrame.otherCols.map Prod.fst ++ ["cap", "floor"] ∧
    (prophetInputMutation "AAPL" plainFrame).rows = plainFrame.rows :=
  ⟨(stageA_mutation_shape "AAPL" plainFrame).1,
   (stageA_mutation_shape "AAPL" plainFrame).2.2 (by decide)⟩

end StockPipeline
